import Mathlib

/-!
Verification development for the tri-store memory engine (claude-memory-kit).

The Rust sources are shallowly embedded: pure functions become Lean
functions, filesystem and database effects become explicit state passing
over association lists, and fallible steps are threaded through `Except`
or boolean effect records describing the outcome of each I/O step.
Machine floating point (f64) is idealised as `Real`; Rust strings are
modelled as `String` (a packed `List Char`), with explicit UTF-8 byte
arithmetic via `Char.utf8Size` where the source indexes by bytes.

External libraries (chrono, serde, the Unicode tables of the Rust
standard library) are modelled only as far as the sources exercise them;
each such modelling decision is recorded in the doc comment of the
definition it concerns.
-/

set_option maxRecDepth 8000

namespace MemoryKit

deriving instance DecidableEq for Except

/-! ## Generic list utilities (sorting, dedup, byte arithmetic) -/

/-- Insert an element into a list so that a sorted list stays sorted. -/
def insertLe (le : α → α → Bool) (a : α) : List α → List α
  | [] => [a]
  | b :: l => if le a b then a :: b :: l else b :: insertLe le a l

/-- Insertion sort; models the sorting performed by Vec::sort and by
iterating a BTreeMap in key order (only membership and ordering of the
result matter to the development). -/
def isort (le : α → α → Bool) : List α → List α
  | [] => []
  | a :: l => insertLe le a (isort le l)

/-- Deduplicate a list, keeping the last occurrence of each element.
Used to model collecting keys into an ordered set: the result is always
sorted afterwards, so which duplicate survives is immaterial. -/
def dedupKeepLast [DecidableEq α] : List α → List α
  | [] => []
  | a :: l => if a ∈ l then dedupKeepLast l else a :: dedupKeepLast l

/-- Lexicographic comparison of char lists by code point; models the
`Ord` instance on Rust strings used by BTreeMap keys. -/
def charListLe : List Char → List Char → Bool
  | [], _ => true
  | _ :: _, [] => false
  | a :: as, b :: bs =>
    if a.toNat < b.toNat then true
    else if a.toNat = b.toNat then charListLe as bs else false

/-- String comparison via `charListLe`. -/
def strLe (a b : String) : Bool := charListLe a.data b.data

/-- UTF-8 byte length of a char list; models str::len on Rust strings. -/
def byteLen (s : List Char) : Nat := (s.map Char.utf8Size).sum

/-- Model of the Rust byte slice `&s[..n]`: `some prefix` when byte
index `n` is a char boundary (the prefix of chars occupying exactly the
first `n` bytes), `none` when the slice operation would panic because
`n` falls inside a multi-byte char or past the end. -/
def byteSliceTo : List Char → Nat → Option (List Char)
  | _, 0 => some []
  | [], _ + 1 => none
  | c :: cs, n + 1 =>
    if c.utf8Size ≤ n + 1 then (byteSliceTo cs (n + 1 - c.utf8Size)).map (c :: ·)
    else none

/-- Model of str::floor_char_boundary followed by slicing: the maximal
prefix of whole chars occupying at most `max` bytes. -/
def byteFloorTake : List Char → Nat → List Char
  | [], _ => []
  | c :: cs, max => if c.utf8Size ≤ max then c :: byteFloorTake cs (max - c.utf8Size) else []

/-- Model of Rust char::to_lowercase as used by str::to_lowercase in
Gate::from_str. Lean Char.toLower lowercases exactly the ASCII range;
the Rust function additionally lowercases non-ASCII letters, which the
four ASCII gate names never contain, so the model is exact on every
string the program compares against them (and on all ASCII input). -/
def strToLower (s : String) : String := String.mk (s.data.map Char.toLower)

/-- Model of Rust char::is_alphanumeric (Unicode Alphabetic or Nd/Nl/No).
The table is reproduced exactly on the Latin-1 range U+0000 to U+00FF;
code points at or above U+0100 are mapped to false, a deliberate cut:
the development only ever evaluates this predicate on Latin-1 input, and
the theorems below that quantify over all strings depend only on the
predicate being some fixed total function. -/
def rustCharIsAlphanumeric (c : Char) : Bool :=
  c.isAlphanum ||
  (let n := c.toNat
   n == 0xAA || n == 0xB2 || n == 0xB3 || n == 0xB5 || n == 0xB9 || n == 0xBA ||
   (0xBC ≤ n && n ≤ 0xBE) || (0xC0 ≤ n && n ≤ 0xD6) ||
   (0xD8 ≤ n && n ≤ 0xF6) || (0xF8 ≤ n && n ≤ 0xFF))

/-- Model of Rust char::is_whitespace: the 25 code points with the
Unicode White_Space property, reproduced in full. -/
def rustCharIsWhitespace (c : Char) : Bool :=
  let n := c.toNat
  (0x09 ≤ n && n ≤ 0x0D) || n == 0x20 || n == 0x85 || n == 0xA0 ||
  n == 0x1680 || (0x2000 ≤ n && n ≤ 0x200A) || n == 0x2028 || n == 0x2029 ||
  n == 0x202F || n == 0x205F || n == 0x3000

/-- Model of str::trim().is_empty(): every char is whitespace. -/
def wsOnly (s : String) : Bool := s.data.all rustCharIsWhitespace

/-! ## Data model (src/types.rs) -/

/-- Write gate (src/types.rs, enum Gate). -/
inductive Gate
  | behavioral
  | relational
  | epistemic
  | promissory
deriving DecidableEq

/-- Gate::as_str (src/types.rs). -/
def Gate.asStr : Gate → String
  | .behavioral => "behavioral"
  | .relational => "relational"
  | .epistemic => "epistemic"
  | .promissory => "promissory"

/-- Gate::from_str (src/types.rs): lowercase, then match the four names. -/
def Gate.fromStr (s : String) : Option Gate :=
  match strToLower s with
  | "behavioral" => some .behavioral
  | "relational" => some .relational
  | "epistemic" => some .epistemic
  | "promissory" => some .promissory
  | _ => none

/-- Decay class (src/types.rs, enum DecayClass). -/
inductive DecayClass
  | slow
  | moderate
  | fast
  | never
deriving DecidableEq

/-- DecayClass::from_gate (src/types.rs). -/
def DecayClass.fromGate : Gate → DecayClass
  | .promissory => .never
  | .relational => .slow
  | .epistemic => .moderate
  | .behavioral => .fast

/-- DecayClass::half_life_days (src/types.rs); f64 idealised as Real. -/
noncomputable def DecayClass.halfLifeDays : DecayClass → Option ℝ
  | .never => none
  | .slow => some 180
  | .moderate => some 90
  | .fast => some 30

/-- Memory record as carried through the store layer (src/types.rs,
struct Memory). Timestamps are carried as their chrono renderings
(opaque strings): no claim settled here inspects a timestamp value,
only copies it into output. f64 confidence is carried as a rational. -/
structure Memory where
  id : String
  created : String
  gate : Gate
  person : Option String
  project : Option String
  confidence : ℚ
  lastAccessed : String
  accessCount : Nat
  decayClass : DecayClass
  content : String
deriving DecidableEq

/-! ## Canonical store: filesystem model (src/store/markdown.rs) -/

/-- The markdown tree as an association list from path to file content. -/
abbrev FS := List (String × String)

/-- Read a file; none when the path does not exist. -/
def fsRead (path : String) (fs : FS) : Option String :=
  (fs.find? (fun e => e.1 == path)).map (·.2)

/-- Model of std::fs::write: create or truncate-and-overwrite. -/
def fsWrite (path content : String) (fs : FS) : FS :=
  (path, content) :: fs.filter (fun e => !(e.1 == path))

/-- category_for_gate (src/store/markdown.rs). -/
def categoryForGate : Gate → String
  | .relational => "people"
  | .epistemic => "learnings"
  | .behavioral => "decisions"
  | .promissory => "commitments"

/-- slugify (src/store/markdown.rs): keep alphanumeric chars and the
dash, replace everything else with an underscore. -/
def slugify (s : String) : String :=
  String.mk (s.data.map (fun c => if rustCharIsAlphanumeric c || c == '-' then c else '_'))

/-- Path of the canonical long-term file of a memory. -/
def longTermPath (m : Memory) : String :=
  "long-term/" ++ categoryForGate m.gate ++ "/" ++ slugify m.id ++ ".md"

/-- write_long_term (src/store/markdown.rs). The YAML rendering of the
record (serde_yaml, external) is taken as a function parameter. -/
def writeLongTerm (yaml : Memory → String) (m : Memory) (fs : FS) : FS :=
  fsWrite (longTermPath m) ("---\n" ++ yaml m ++ "---\n\n" ++ m.content ++ "\n") fs

/-- write_journal_entry (src/store/markdown.rs): append to the per-day
file, writing the date header first when the file is new or empty.
The chrono renderings of the timestamp are passed in as strings. -/
def writeJournalEntry (dateStr timeStr : String) (gate : Gate) (content : String) (fs : FS) : FS :=
  let path := "journal/" ++ dateStr ++ ".md"
  let prior := (fsRead path fs).getD ""
  let line := "\n## " ++ timeStr ++ " - " ++ gate.asStr ++ "\n[" ++ gate.asStr ++ "] " ++ content ++ "\n"
  let newContent := if prior = "" then "# " ++ dateStr ++ "\n" ++ line else prior ++ line
  fsWrite path newContent fs

/-! ## Lexical index model (src/store/sqlite.rs) -/

/-- get_memory: SELECT by primary key, modelled as first match by id. -/
def getMemory (id : String) (db : List Memory) : Option Memory :=
  db.find? (fun m => m.id == id)

/-- delete_memory (src/store/sqlite.rs): fetch the row, then DELETE it
when present; returns the prior row together with the new table. -/
def deleteMemory (id : String) (db : List Memory) : Option Memory × List Memory :=
  match getMemory id db with
  | none => (none, db)
  | some m => (some m, db.filter (fun x => !(x.id == id)))

/-- index_memory (src/store/sqlite.rs): INSERT OR REPLACE by id. -/
def upsertMemory (m : Memory) (db : List Memory) : List Memory :=
  m :: db.filter (fun x => !(x.id == m.id))

/-! ## Relation index model (src/store/graph.rs) -/

/-- A Memory node of the property graph. -/
structure RxNode where
  id : String
  gate : String
  person : String
  project : String
  preview : String
deriving DecidableEq

/-- Graph state: Memory nodes plus typed edges (from, relation, to). -/
structure RxState where
  nodes : List RxNode
  edges : List (String × String × String)
deriving DecidableEq

/-- truncate (src/store/graph.rs): identity when the string fits in
`max` bytes, otherwise slice to floor_char_boundary(max) and append an
ellipsis. -/
def truncate (s : String) (max : Nat) : String :=
  if byteLen s.data ≤ max then s
  else String.mk (byteFloorTake s.data max) ++ "..."

/-- upsert_memory_node (src/store/graph.rs): MERGE by id, SET fields;
optional tags are stored as empty strings, preview is the 200-byte
truncation of the content. -/
def rxUpsertMemoryNode (id gate : String) (person project : Option String)
    (contentPreview : String) (g : RxState) : RxState :=
  let node : RxNode :=
    ⟨id, gate, person.getD "", project.getD "", truncate contentPreview 200⟩
  { g with nodes :=
      if g.nodes.any (fun n => n.id == id)
      then g.nodes.map (fun n => if n.id == id then node else n)
      else g.nodes ++ [node] }

/-- MERGE of a single edge: add it unless already present. -/
def mergeEdge (e : String × String × String) (es : List (String × String × String)) :
    List (String × String × String) :=
  if e ∈ es then es else es ++ [e]

/-- One MATCH-MERGE round of auto_link: RELATED_TO edges from the given
memory to every other node satisfying the tag predicate; no-op when the
source node itself is absent (the MATCH finds nothing). -/
def addRelatedEdges (id : String) (pred : RxNode → Bool) (g : RxState) : RxState :=
  if g.nodes.any (fun n => n.id == id) then
    let others := g.nodes.filter (fun n => pred n && !(n.id == id))
    let newEdges := others.foldl (fun es n => mergeEdge (id, "RELATED_TO", n.id) es) g.edges
    { g with edges := newEdges }
  else g

/-- auto_link (src/store/graph.rs): link to nodes sharing a non-empty
person tag, then to nodes sharing a non-empty project tag. -/
def rxAutoLink (id : String) (person project : Option String) (g : RxState) : RxState :=
  let g1 := match person with
    | some p => if p = "" then g else addRelatedEdges id (fun n => n.person == p) g
    | none => g
  match project with
  | some p => if p = "" then g1 else addRelatedEdges id (fun n => n.project == p) g1
  | none => g1

/-- delete_node (src/store/graph.rs): DETACH DELETE by id. -/
def rxDeleteNode (id : String) (g : RxState) : RxState :=
  { nodes := g.nodes.filter (fun n => !(n.id == id)),
    edges := g.edges.filter (fun e => !(e.1 == id || e.2.2 == id)) }

/-- sanitizeRelation: the filter in add_edge (src/store/graph.rs),
keeping only chars that Rust considers alphanumeric, plus underscore. -/
def sanitizeRelation (relation : String) : String :=
  String.mk (relation.data.filter (fun c => rustCharIsAlphanumeric c || c == '_'))

/-- add_edge (src/store/graph.rs), restricted to its input validation
and to the relation text interpolated into the Cypher query: an error
when the sanitized relation is empty, otherwise the sanitized relation
as it appears in the MERGE clause. -/
def addEdgeRelation (relation : String) : Except String String :=
  let safe := sanitizeRelation relation
  if safe.data.isEmpty then .error ("invalid relation type: '" ++ relation ++ "'")
  else .ok safe

/-! ## Aggregate store state -/

/-- The aggregate handle guarded by the server lock: LX table, CS file
tree, and the optional shadow stores. VX (Qdrant) is modelled by the
multiset of payload memory_ids of its points; vectors themselves and
point UUIDs are never observed by the claims settled here. -/
structure Store where
  db : List Memory
  fs : FS
  vectors : Option (List String)
  graph : Option RxState
deriving DecidableEq

/-! ## forget (src/tools/forget.rs) -/

/-- Outcomes of the fallible I/O steps inside do_forget: the archive
directory creation and file write (lumped, both propagate with ?), and
the two best-effort shadow deletions. -/
structure ForgetEff where
  archiveWriteOk : Bool
  vxDeleteOk : Bool
  rxDeleteOk : Bool
deriving DecidableEq

/-- The archive file body written by do_forget (src/tools/forget.rs);
the rfc3339 rendering of Utc::now() is passed in as a string. -/
def archiveContent (nowRfc reason : String) (m : Memory) : String :=
  "---\narchived: " ++ nowRfc ++ "\nreason: " ++ reason ++ "\noriginal_gate: " ++
    m.gate.asStr ++ "\n---\n\n" ++ m.content ++ "\n"

/-- do_forget (src/tools/forget.rs): delete from LX; on a missing row
return the not-found string with nothing else done; otherwise write the
archive file (propagating its failure), then best-effort delete from VX
and RX, swallowing their failures. -/
def doForget (nowRfc id reason : String) (eff : ForgetEff) (st : Store) :
    Except String String × Store :=
  match deleteMemory id st.db with
  | (none, _) => (.ok ("No memory found with id: " ++ id), st)
  | (some m, db1) =>
    if !eff.archiveWriteOk then
      (.error "archive write failed", { st with db := db1 })
    else
      let fs1 := fsWrite ("archive/" ++ id ++ ".md") (archiveContent nowRfc reason m) st.fs
      let vx1 := st.vectors.map (fun v => if eff.vxDeleteOk then v.filter (fun x => !(x == id)) else v)
      let rx1 := st.graph.map (fun g => if eff.rxDeleteOk then rxDeleteNode id g else g)
      (.ok ("Forgotten: " ++ id ++ " (reason: " ++ reason ++ "). Archived for accountability."),
       { db := db1, fs := fs1, vectors := vx1, graph := rx1 })

/-! ## remember (src/tools/remember.rs) -/

/-- The response formatting step of do_remember: format! with the
content clipped by the Rust byte slice `&content[..80]` when the
content is longer than 80 bytes. `none` models the panic raised when
byte index 80 is not a char boundary. -/
def rememberMessage (gate : Gate) (content id : String) : Option String :=
  (if byteLen content.data > 80 then byteSliceTo content.data 80 else some content.data).map
    (fun cs => "Remembered [" ++ gate.asStr ++ "]: " ++ String.mk cs ++ " (id: " ++ id ++ ")")

/-- Inputs of do_remember, with the chrono renderings of Utc::now() and
the 4-char uuid fragment passed in as opaque strings. -/
structure RememberParams where
  content : String
  gateStr : String
  person : Option String
  project : Option String
  stamp : String
  dateStr : String
  timeStr : String
  createdStr : String
  rand4 : String

/-- Outcomes of the fallible steps inside do_remember: the two required
CS writes and the required LX upsert, then the three best-effort shadow
steps (VX embed_and_store, RX upsert_memory_node, RX auto_link). -/
structure RememberEff where
  journalOk : Bool
  longTermOk : Bool
  indexOk : Bool
  vxOk : Bool
  rxUpsertOk : Bool
  rxLinkOk : Bool
deriving DecidableEq

/-- do_remember (src/tools/remember.rs). The YAML serializer is a
function parameter (external serde_yaml). The result is `none` when the
final formatting step panics, otherwise the Result together with the
updated store. -/
def doRemember (yaml : Memory → String) (p : RememberParams) (eff : RememberEff)
    (st : Store) : Option (Except String String × Store) :=
  match Gate.fromStr p.gateStr with
  | none =>
    some (.error ("invalid gate '" ++ p.gateStr ++
      "'. use: behavioral, relational, epistemic, promissory"), st)
  | some gate =>
    let id := "mem_" ++ p.stamp ++ "_" ++ p.rand4
    let memory : Memory :=
      { id := id, created := p.createdStr, gate := gate, person := p.person,
        project := p.project, confidence := 9 / 10, lastAccessed := p.createdStr,
        accessCount := 1, decayClass := DecayClass.fromGate gate, content := p.content }
    if !eff.journalOk then some (.error "journal write failed", st)
    else
      let fs1 := writeJournalEntry p.dateStr p.timeStr gate p.content st.fs
      if !eff.longTermOk then some (.error "long-term write failed", { st with fs := fs1 })
      else
        let fs2 := writeLongTerm yaml memory fs1
        if !eff.indexOk then some (.error "index failed", { st with fs := fs2 })
        else
          let db1 := upsertMemory memory st.db
          let vx1 := st.vectors.map (fun v => if eff.vxOk then v ++ [id] else v)
          let rx1 := st.graph.map (fun g =>
            let g1 := if eff.rxUpsertOk
              then rxUpsertMemoryNode id gate.asStr p.person p.project p.content g
              else g
            if eff.rxLinkOk then rxAutoLink id p.person p.project g1 else g1)
          (rememberMessage gate p.content id).map
            (fun msg => (.ok msg, { db := db1, fs := fs2, vectors := vx1, graph := rx1 }))

/-! ## recall (src/tools/recall.rs) -/

/-- Outcomes of the four backend queries inside do_recall: the FTS
search, the vector similarity search (pairs of memory_id and the
already-formatted two-decimal score text), the per-seed-id graph
traversal, and the markdown grep fallback. -/
structure RecallEff where
  fts : Except Unit (List Memory)
  vxSearch : Except Unit (List (String × String))
  related : String → Except Unit (List (String × String × String))
  grep : Except Unit (List String)

/-- The FTS hit line of do_recall. -/
def ftsLine (m : Memory) : String :=
  "[" ++ m.gate.asStr ++ "] (" ++ m.created ++ ", " ++ m.person.getD "?" ++ ") " ++
    m.content ++ "\n  id: " ++ m.id

/-- do_recall (src/tools/recall.rs): fuse the four sources with
de-duplication by memory id; every backend failure is logged and
skipped, so the function always reaches one of the two Ok returns.
The HashSet of seen ids is modelled in insertion order (its iteration
order in step 3 is unspecified in Rust; only which ids are seen, not
their order, matters to the claims settled here). The touch_memory call
per FTS hit discards its Result in the source and its LX update is not
observed by any claim here, so it is elided. -/
def doRecall (eff : RecallEff) (st : Store) : Except String String :=
  let s1 : List String × List String :=
    match eff.fts with
    | .error _ => ([], [])
    | .ok mems =>
      mems.foldl (fun acc m =>
        if m.id ∈ acc.2 then acc else (acc.1 ++ [ftsLine m], acc.2 ++ [m.id])) ([], [])
  let s2 : List String × List String :=
    match st.vectors with
    | none => s1
    | some _ =>
      match eff.vxSearch with
      | .error _ => s1
      | .ok hits =>
        hits.foldl (fun acc h =>
          if h.1 ∈ acc.2 then acc
          else (acc.1 ++ ["[vector match, score=" ++ h.2 ++ "] id: " ++ h.1], acc.2 ++ [h.1])) s1
  let s3 : List String × List String :=
    if s2.1.length < 3 then
      match st.graph with
      | none => s2
      | some _ =>
        (s2.2.take 2).foldl (fun acc i =>
          match eff.related i with
          | .error _ => acc
          | .ok rel =>
            rel.foldl (fun acc r =>
              if r.1 ∈ acc.2 then acc
              else (acc.1 ++ ["[graph: " ++ r.2.1 ++ "] " ++ r.2.2 ++ " (id: " ++ r.1 ++ ")"],
                    acc.2 ++ [r.1])) acc) s2
    else s2
  let rs :=
    if s3.1.isEmpty then
      match eff.grep with
      | .error _ => s3.1
      | .ok gs => s3.1 ++ (gs.take 3).map (fun c => "[file search] " ++ String.mk (c.data.take 300))
    else s3.1
  if rs.isEmpty then .ok "No memories found matching that query."
  else .ok ("Found " ++ toString rs.length ++ " memories:\n\n" ++ String.intercalate "\n\n" rs)

/-! ## Decay model (src/consolidation/decay.rs)

The f64 arithmetic is idealised over the reals; powf on the positive
base 0.5 agrees with the real power function. The quantity
(Utc::now() - last_accessed).num_hours() is taken as an integer input. -/

/-- The fields of a memory that the decay model reads. -/
structure DecayMemory where
  hoursSinceLastAccessed : ℤ
  accessCount : ℕ
  decayClass : DecayClass

/-- recency_factor (src/consolidation/decay.rs). -/
noncomputable def recencyFactor (m : DecayMemory) : ℝ :=
  match m.decayClass.halfLifeDays with
  | none => 1
  | some h =>
    let daysSince : ℝ := (m.hoursSinceLastAccessed : ℝ) / 24
    (0.5 : ℝ) ^ (daysSince / h)

/-- frequency_factor (src/consolidation/decay.rs). -/
noncomputable def frequencyFactor (m : DecayMemory) : ℝ :=
  Real.log ((m.accessCount : ℝ) + 1) / Real.log 2

/-- compute_decay_score (src/consolidation/decay.rs). -/
noncomputable def computeDecayScore (m : DecayMemory) : ℝ :=
  recencyFactor m * frequencyFactor m

/-- is_fading (src/consolidation/decay.rs): false for the never class,
otherwise score below 0.1. -/
def isFading (m : DecayMemory) : Prop :=
  match m.decayClass with
  | .never => False
  | _ => computeDecayScore m < 0.1

/-- The decay formula exactly as the specification words it:
score = 0.5 ^ (hours_since_last_accessed / 24 / half_life_days)
      * (ln(access_count + 1) / ln 2),
with recency 1.0 when the class never decays and half-lives 180/90/30
days for slow/moderate/fast. Written from the spec text, for comparison
against the code-derived definitions above. -/
noncomputable def specDecayScore (m : DecayMemory) : ℝ :=
  let recency : ℝ :=
    match m.decayClass with
    | .never => 1
    | .slow => (0.5 : ℝ) ^ ((m.hoursSinceLastAccessed : ℝ) / 24 / 180)
    | .moderate => (0.5 : ℝ) ^ ((m.hoursSinceLastAccessed : ℝ) / 24 / 90)
    | .fast => (0.5 : ℝ) ^ ((m.hoursSinceLastAccessed : ℝ) / 24 / 30)
  recency * (Real.log ((m.accessCount : ℝ) + 1) / Real.log 2)

/-! ## Row decoding (src/store/sqlite.rs: parse_dt, parse_gate, parse_decay) -/

/-- The external parsers invoked by the row decoders: chrono rfc3339
parsing (result idealised as an integer timestamp) and serde_json
decoding of a DecayClass. Both are third-party code; the decoders below
are proved for every behaviour of these functions. -/
structure ExternalParsers where
  parseRfc3339 : String → Option ℤ
  parseDecayJson : String → Option DecayClass

/-- parse_dt (src/store/sqlite.rs): fall back to Utc::now() when the
stored text does not parse. -/
def parseDt (P : ExternalParsers) (s : String) (now : ℤ) : ℤ :=
  (P.parseRfc3339 s).getD now

/-- parse_gate (src/store/sqlite.rs): Gate::from_str with the epistemic
fallback. -/
def parseGate (s : String) : Gate :=
  (Gate.fromStr s).getD .epistemic

/-- parse_decay (src/store/sqlite.rs): serde_json decode with the
moderate fallback. -/
def parseDecay (P : ExternalParsers) (s : String) : DecayClass :=
  (P.parseDecayJson s).getD .moderate

/-- The four gate name strings, as stored by Gate::as_str. -/
def gateNames : List String := ["behavioral", "relational", "epistemic", "promissory"]

/-! ## Digest pipeline (src/consolidation/digest.rs, journal.rs)

Journal dates are idealised as integers (days); the ISO week key
rendering %G-W%V of chrono is a function parameter (external), as is
the summarizer (external HTTP; the claims below concern runs in which
it succeeds). -/

/-- The slice of the store that the digest pipeline touches: the
journal directory, the digests directory and the journal archive, each
as date-or-key to content. -/
structure DigestStore where
  journals : List (ℤ × String)
  digests : List (String × String)
  archivedJournals : List (ℤ × String)
deriving DecidableEq

/-- list_journal_dates (src/consolidation/journal.rs): the dates found
in the journal directory, sorted. -/
def listJournalDates (st : DigestStore) : List ℤ :=
  isort (fun a b => a ≤ b) (st.journals.map (·.1))

/-- stale_journals (src/consolidation/journal.rs): dates strictly older
than the cutoff. -/
def staleJournals (today maxAgeDays : ℤ) (st : DigestStore) : List ℤ :=
  (listJournalDates st).filter (fun d => d < today - maxAgeDays)

/-- read_journal (src/store/markdown.rs): file content, or the empty
string when the file does not exist. -/
def readJournal (st : DigestStore) (d : ℤ) : String :=
  ((st.journals.find? (fun p => p.1 == d)).map (·.2)).getD ""

/-- archive_journal (src/consolidation/journal.rs): rename the journal
file into archive/journal/, overwriting any file already there; no-op
when the source file does not exist. -/
def archiveJournal (st : DigestStore) (d : ℤ) : DigestStore :=
  match st.journals.find? (fun p => p.1 == d) with
  | none => st
  | some p =>
    { st with
      journals := st.journals.filter (fun q => !(q.1 == d)),
      archivedJournals := (d, p.2) :: st.archivedJournals.filter (fun q => !(q.1 == d)) }

/-- The body of the per-week loop of consolidate_journals
(src/consolidation/digest.rs): concatenate the journals of the stale
dates of this week, skip when whitespace-only, otherwise write the
digest file and archive each source journal. The accumulator carries
the week keys written so far. -/
def processWeek (isoWeek : ℤ → String) (digestFn : String → String) (stale : List ℤ)
    (acc : List String × DigestStore) (w : String) : List String × DigestStore :=
  let st := acc.2
  let dates := stale.filter (fun d => isoWeek d == w)
  let combined := dates.foldl (fun s d => s ++ readJournal st d ++ "\n") ""
  if wsOnly combined then acc
  else
    let digest := digestFn combined
    let st1 := { st with digests :=
      ("digests/" ++ w ++ ".md", "# Week " ++ w ++ "\n\n" ++ digest ++ "\n") ::
        st.digests.filter (fun q => !(q.1 == "digests/" ++ w ++ ".md")) }
    let st2 := dates.foldl archiveJournal st1
    (acc.1 ++ [w], st2)

/-- consolidate_journals (src/consolidation/digest.rs): select stale
dates (14-day cutoff), group by ISO week in sorted key order (BTreeMap),
process each group, and report the weeks written. -/
def consolidateJournals (isoWeek : ℤ → String) (digestFn : String → String)
    (today : ℤ) (st : DigestStore) : Option String × DigestStore :=
  let stale := staleJournals today 14 st
  if stale.isEmpty then (none, st)
  else
    let weeks := isort strLe (dedupKeepLast (stale.map isoWeek))
    let r := weeks.foldl (processWeek isoWeek digestFn stale) ([], st)
    if r.1.isEmpty then (none, r.2)
    else
      (some ("Consolidated " ++ toString r.1.length ++ " weeks: " ++
        String.intercalate ", " r.1), r.2)

/-! ## Concrete fixtures used by witnesses and counterexamples -/

/-- A concrete memory row. -/
def exMemory : Memory :=
  { id := "m1", created := "2026-01-01", gate := .epistemic, person := none,
    project := none, confidence := 9 / 10, lastAccessed := "2026-01-01",
    accessCount := 1, decayClass := .moderate, content := "hello" }

/-- A store holding exMemory in LX together with its canonical
long-term file, shadow stores absent. -/
def exStore : Store :=
  { db := [exMemory],
    fs := [("long-term/learnings/m1.md", "canonical")],
    vectors := none, graph := none }

/-- An empty store. -/
def emptyStore : Store := { db := [], fs := [], vectors := none, graph := none }

/-! ## Helper lemmas -/

theorem insertLe_perm (le : α → α → Bool) (a : α) (l : List α) :
    List.Perm (insertLe le a l) (a :: l) := by
  induction l with
  | nil => exact List.Perm.refl _
  | cons b l ih =>
    simp only [insertLe]
    by_cases h : le a b = true
    · simp [h]
    · simp only [h, if_false]
      exact List.Perm.trans (List.Perm.cons b ih) (List.Perm.swap a b l)

theorem isort_perm (le : α → α → Bool) (l : List α) :
    List.Perm (isort le l) l := by
  induction l with
  | nil => exact List.Perm.refl _
  | cons a l ih =>
    exact List.Perm.trans (insertLe_perm le a (isort le l)) (List.Perm.cons a ih)

theorem mem_isort (le : α → α → Bool) (x : α) (l : List α) :
    x ∈ isort le l ↔ x ∈ l := (isort_perm le l).mem_iff

theorem mem_dedupKeepLast [DecidableEq α] (x : α) (l : List α) :
    x ∈ dedupKeepLast l ↔ x ∈ l := by
  induction l with
  | nil => simp [dedupKeepLast]
  | cons a l ih =>
    by_cases h : a ∈ l
    · simp only [dedupKeepLast, if_pos h, ih, List.mem_cons]
      constructor
      · exact Or.inr
      · rintro (rfl | hx)
        · exact h
        · exact hx
    · simp [dedupKeepLast, h, ih]

theorem nodup_dedupKeepLast [DecidableEq α] (l : List α) :
    (dedupKeepLast l).Nodup := by
  induction l with
  | nil => simp [dedupKeepLast]
  | cons a l ih =>
    by_cases h : a ∈ l
    · simpa [dedupKeepLast, h] using ih
    · simp [dedupKeepLast, h, ih, mem_dedupKeepLast]

theorem nodup_isort [DecidableEq α] (le : α → α → Bool) (l : List α) (h : l.Nodup) :
    (isort le l).Nodup := ((isort_perm le l).nodup_iff).mpr h

/-- find? over a filter that keeps everything the find predicate
accepts is find? over the original list. -/
theorem find?_filter_of_imp (l : List α) (p q : α → Bool)
    (h : ∀ a, p a = true → q a = true) :
    (l.filter q).find? p = l.find? p := by
  induction l with
  | nil => rfl
  | cons a l ih =>
    by_cases hq : q a = true
    · by_cases hp : p a = true
      · simp [List.filter_cons, hq, List.find?_cons, hp]
      · simp only [List.filter_cons, hq, if_true, List.find?_cons]
        simp only [hp]
        simpa [Bool.not_eq_true] using ih
    · have hp : p a = false := by
        cases hpa : p a with
        | false => rfl
        | true => exact absurd (h a hpa) hq
      simp only [List.filter_cons, hq, if_false, List.find?_cons, hp]
      simpa [Bool.not_eq_true] using ih

theorem fsRead_fsWrite_self (path content : String) (fs : FS) :
    fsRead path (fsWrite path content fs) = some content := by
  simp [fsRead, fsWrite, List.find?_cons]

theorem fsRead_fsWrite_other (path content p : String) (fs : FS) (h : p ≠ path) :
    fsRead p (fsWrite path content fs) = fsRead p fs := by
  simp only [fsRead, fsWrite]
  have hhead : (fun (e : String × String) => e.1 == p) (path, content) = false := by
    simp [Ne.symm h]
  rw [List.find?_cons]
  simp only [hhead]
  rw [find?_filter_of_imp]
  intro a ha
  simp only [beq_iff_eq] at ha
  simp [ha, h]

/-! ## Claim C1 -/

/-- C1, counterexample: at a concrete store, a successful forget does
remove the LX row and create the archive file, but the canonical
long-term file is still present afterwards, refuting the part of the
claim that says the memory file is removed from long-term/. -/
theorem c1_forget_keeps_long_term_counterexample :
    (doForget "T" "m1" "r" ⟨true, true, true⟩ exStore).2.db = [] ∧
    fsRead "archive/m1.md" (doForget "T" "m1" "r" ⟨true, true, true⟩ exStore).2.fs =
      some (archiveContent "T" "r" exMemory) ∧
    fsRead "long-term/learnings/m1.md" (doForget "T" "m1" "r" ⟨true, true, true⟩ exStore).2.fs =
      some "canonical" := by
  refine ⟨rfl, rfl, rfl⟩

/-- C1, amended: for every memory id present in LX, a successful
forget(id, reason) removes the LX row and creates archive/id.md with
the archival frontmatter followed by the content body, while every
other file — in particular the canonical long-term file — is left
untouched. -/
theorem c1_forget_removes_row_and_archives :
    ∀ (nowRfc id reason : String) (eff : ForgetEff) (st : Store) (m : Memory),
      getMemory id st.db = some m → eff.archiveWriteOk = true →
      (doForget nowRfc id reason eff st).1 =
        .ok ("Forgotten: " ++ id ++ " (reason: " ++ reason ++ "). Archived for accountability.") ∧
      (∀ x ∈ (doForget nowRfc id reason eff st).2.db, x.id ≠ id) ∧
      fsRead ("archive/" ++ id ++ ".md") (doForget nowRfc id reason eff st).2.fs =
        some (archiveContent nowRfc reason m) ∧
      (∀ p, p ≠ "archive/" ++ id ++ ".md" →
        fsRead p (doForget nowRfc id reason eff st).2.fs = fsRead p st.fs) := by
  intro nowRfc id reason eff st m hfind harch
  have hdel : deleteMemory id st.db = (some m, st.db.filter (fun x => !(x.id == id))) := by
    simp [deleteMemory, hfind]
  simp only [doForget, hdel, harch, Bool.not_true, Bool.false_eq_true, if_false]
  refine ⟨by trivial, ?_, ?_, ?_⟩
  · intro x hx
    simp only [List.mem_filter, Bool.not_eq_eq_eq_not, Bool.not_true, beq_eq_false_iff_ne,
      ne_eq] at hx
    exact hx.2
  · exact fsRead_fsWrite_self _ _ _
  · intro p hp
    exact fsRead_fsWrite_other _ _ _ _ hp

/-- C1 witness: the amended theorem applied at the concrete store. -/
theorem c1_forget_removes_row_and_archives_witness :
    getMemory "m1" exStore.db = some exMemory ∧
    fsRead ("archive/" ++ "m1" ++ ".md") (doForget "T" "m1" "r" ⟨true, false, false⟩ exStore).2.fs =
      some (archiveContent "T" "r" exMemory) :=
  ⟨rfl, (c1_forget_removes_row_and_archives "T" "m1" "r" ⟨true, false, false⟩ exStore exMemory
      rfl rfl).2.2.1⟩

/-! ## Claim C6 -/

/-- C6: forget of an id with no LX row returns the plain not-found
string as a success value and leaves the whole store — LX rows and
files included — unchanged. -/
theorem c6_forget_unknown_id :
    ∀ (nowRfc id reason : String) (eff : ForgetEff) (st : Store),
      getMemory id st.db = none →
      doForget nowRfc id reason eff st = (.ok ("No memory found with id: " ++ id), st) := by
  intro nowRfc id reason eff st h
  simp [doForget, deleteMemory, h]

/-- C6 witness: the theorem applied at a concrete unknown id. -/
theorem c6_forget_unknown_id_witness :
    getMemory "mem_doesnotexist" emptyStore.db = none ∧
    doForget "T" "mem_doesnotexist" "test" ⟨true, true, true⟩ emptyStore =
      (.ok ("No memory found with id: " ++ "mem_doesnotexist"), emptyStore) :=
  ⟨rfl, c6_forget_unknown_id "T" "mem_doesnotexist" "test" ⟨true, true, true⟩ emptyStore rfl⟩

/-! ## Claim C9 -/

/-- C9: when the row exists but the archive write fails, forget
returns an error, yet the LX row has already been deleted; the files
are untouched, so an error return does not mean the state is
unchanged. -/
theorem c9_forget_error_leaves_row_deleted :
    ∀ (nowRfc id reason : String) (eff : ForgetEff) (st : Store) (m : Memory),
      getMemory id st.db = some m → eff.archiveWriteOk = false →
      (∃ e, (doForget nowRfc id reason eff st).1 = .error e) ∧
      (doForget nowRfc id reason eff st).2.fs = st.fs ∧
      (doForget nowRfc id reason eff st).2.db = st.db.filter (fun x => !(x.id == id)) ∧
      (∀ x ∈ (doForget nowRfc id reason eff st).2.db, x.id ≠ id) := by
  intro nowRfc id reason eff st m hfind harch
  have hdel : deleteMemory id st.db = (some m, st.db.filter (fun x => !(x.id == id))) := by
    simp [deleteMemory, hfind]
  simp only [doForget, hdel, harch, Bool.not_false, if_true]
  refine ⟨⟨"archive write failed", by trivial⟩, by trivial, by trivial, ?_⟩
  intro x hx
  simp only [List.mem_filter, Bool.not_eq_eq_eq_not, Bool.not_true, beq_eq_false_iff_ne,
    ne_eq] at hx
  exact hx.2

/-- C9 witness: the theorem applied at the concrete store with a
failing archive write. -/
theorem c9_forget_error_leaves_row_deleted_witness :
    getMemory "m1" exStore.db = some exMemory ∧
    (∃ e, (doForget "T" "m1" "r" ⟨false, true, true⟩ exStore).1 = .error e) ∧
    (doForget "T" "m1" "r" ⟨false, true, true⟩ exStore).2.fs = exStore.fs :=
  ⟨rfl,
   (c9_forget_error_leaves_row_deleted "T" "m1" "r" ⟨false, true, true⟩ exStore exMemory
      rfl rfl).1,
   (c9_forget_error_leaves_row_deleted "T" "m1" "r" ⟨false, true, true⟩ exStore exMemory
      rfl rfl).2.1⟩

/-! ## Claim C2 -/

/-- A content string of 80 chars and 81 bytes whose byte index 80 falls
inside the final two-byte char. -/
def c2BadContent : String := String.mk (List.replicate 79 'a' ++ ['é'])

/-- A content string of 41 chars and 82 bytes made of two-byte chars. -/
def c2WideContent : String := String.mk (List.replicate 41 'é')

/-- C2: the response formatting of do_remember slices the content by
bytes, not chars. On c2BadContent (80 chars, 81 bytes) the slice
&content[..80] panics, so remember does not succeed; and on
c2WideContent (41 chars, within the claimed 80-char budget) the
response carries only the first 40 chars instead of the whole content.
Both evaluations contradict the claim at these inputs. -/
theorem c2_remember_format_panics_on_multibyte :
    rememberMessage .epistemic c2BadContent "mem_x" = none ∧
    c2BadContent.data.length = 80 ∧
    byteLen c2BadContent.data = 81 ∧
    rememberMessage .epistemic c2WideContent "mem_x" =
      some ("Remembered [epistemic]: " ++ String.mk (List.replicate 40 'é') ++ " (id: mem_x)") ∧
    c2WideContent.data.length = 41 := by
  refine ⟨by decide, by decide, by decide, by decide, by decide⟩

/-! ## Claim C4 -/

/-- C4, counterexample: the relation string made of the single char é
is accepted by add_edge and interpolated into the query as-is, although
é is outside [A-Za-z0-9_]; the claimed ASCII-only sanitization would
have emptied it and rejected the call. -/
theorem c4_unicode_relation_counterexample :
    addEdgeRelation "é" = .ok "é" ∧
    ('é'.isAlphanum || 'é' == '_') = false ∧
    "é".data.filter (fun c => c.isAlphanum || c == '_') = [] := by
  refine ⟨by decide, by decide, by decide⟩

/-- C4, amended: add_edge keeps exactly the chars that Rust considers
alphanumeric (a Unicode class strictly larger than [A-Za-z0-9])
together with the underscore, fails with the invalid-relation error iff
nothing survives, and every char it interpolates into the query is in
that sanitized set. -/
theorem c4_add_edge_sanitization :
    ∀ relation : String,
      ((∃ e, addEdgeRelation relation = .error e) ↔ sanitizeRelation relation = "") ∧
      (sanitizeRelation relation).data =
        relation.data.filter (fun c => rustCharIsAlphanumeric c || c == '_') ∧
      ((sanitizeRelation relation).data.all
        (fun c => rustCharIsAlphanumeric c || c == '_')) = true := by
  intro relation
  refine ⟨?_, by simp [sanitizeRelation], ?_⟩
  · constructor
    · rintro ⟨e, he⟩
      simp only [addEdgeRelation] at he
      by_cases h : (sanitizeRelation relation).data.isEmpty
      · cases hs : sanitizeRelation relation with
        | mk data => cases data with
          | nil => rfl
          | cons c cs => rw [hs] at h; simp at h
      · simp [h] at he
    · intro h
      refine ⟨"invalid relation type: '" ++ relation ++ "'", ?_⟩
      simp [addEdgeRelation, h]
  · simp only [sanitizeRelation]
    exact List.all_eq_true.mpr (fun c hc => (List.mem_filter.mp hc).2)

/-- C4 witness: the amended theorem applied at a concrete mixed
relation string. -/
theorem c4_add_edge_sanitization_witness :
    ((∃ e, addEdgeRelation "a-b!" = .error e) ↔ sanitizeRelation "a-b!" = "") ∧
    (sanitizeRelation "a-b!").data =
      "a-b!".data.filter (fun c => rustCharIsAlphanumeric c || c == '_') ∧
    ((sanitizeRelation "a-b!").data.all
      (fun c => rustCharIsAlphanumeric c || c == '_')) = true :=
  c4_add_edge_sanitization "a-b!"

/-! ## Claim C5 -/

/-- C5: the decay score computed by the code equals the score the
specification formula prescribes — recency 0.5 ^ (hours / 24 /
half_life) with half-lives 180/90/30 and recency 1 for the never class,
frequency ln(access_count + 1) / ln 2 — and a memory is fading iff its
class is not never and its score is below 0.1. -/
theorem c5_decay_score_matches_spec :
    ∀ m : DecayMemory,
      computeDecayScore m = specDecayScore m ∧
      (isFading m ↔ m.decayClass ≠ .never ∧ computeDecayScore m < 0.1) ∧
      DecayClass.halfLifeDays .slow = some 180 ∧
      DecayClass.halfLifeDays .moderate = some 90 ∧
      DecayClass.halfLifeDays .fast = some 30 ∧
      DecayClass.halfLifeDays .never = none := by
  intro m
  obtain ⟨h, a, c⟩ := m
  cases c <;>
    simp [computeDecayScore, specDecayScore, recencyFactor, frequencyFactor, isFading,
      DecayClass.halfLifeDays]

/-- C5 witness: the theorem applied at a concrete memory of the fast
decay class. -/
theorem c5_decay_score_matches_spec_witness :
    computeDecayScore ⟨48, 1, .fast⟩ = specDecayScore ⟨48, 1, .fast⟩ ∧
    (isFading ⟨48, 1, .fast⟩ ↔
      (⟨48, 1, .fast⟩ : DecayMemory).decayClass ≠ .never ∧
        computeDecayScore ⟨48, 1, .fast⟩ < 0.1) ∧
    DecayClass.halfLifeDays .slow = some 180 ∧
    DecayClass.halfLifeDays .moderate = some 90 ∧
    DecayClass.halfLifeDays .fast = some 30 ∧
    DecayClass.halfLifeDays .never = none :=
  c5_decay_score_matches_spec ⟨48, 1, .fast⟩

/-! ## Claim C8 -/

/-- A content string of 101 chars and 202 bytes. -/
def c8Content : String := String.mk (List.replicate 101 'é')

/-- C8, counterexample: c8Content has only 101 chars, so under the
claim the preview would be the content itself; the code truncates it at
200 bytes to 100 chars plus the ellipsis. -/
theorem c8_truncate_uses_bytes_counterexample :
    c8Content.data.length = 101 ∧
    truncate c8Content 200 = String.mk (List.replicate 100 'é') ++ "..." ∧
    truncate c8Content 200 ≠ c8Content := by
  refine ⟨by decide, by decide, by decide⟩

/-- byteFloorTake yields a prefix of whole chars. -/
theorem byteFloorTake_eq_take :
    ∀ (s : List Char) (n : Nat), byteFloorTake s n = s.take (byteFloorTake s n).length := by
  intro s
  induction s with
  | nil => intro n; rfl
  | cons c cs ih =>
    intro n
    simp only [byteFloorTake]
    by_cases h : c.utf8Size ≤ n
    · simp only [h, if_true, List.length_cons, List.take_succ_cons]
      rw [← ih (n - c.utf8Size)]
    · simp [h]

/-- byteFloorTake stays within the byte budget. -/
theorem byteLen_byteFloorTake_le :
    ∀ (s : List Char) (n : Nat), byteLen (byteFloorTake s n) ≤ n := by
  intro s
  induction s with
  | nil => intro n; simp [byteFloorTake, byteLen]
  | cons c cs ih =>
    intro n
    simp only [byteFloorTake]
    by_cases h : c.utf8Size ≤ n
    · simp only [h, if_true, byteLen, List.map_cons, List.sum_cons]
      have := ih (n - c.utf8Size)
      simp only [byteLen] at this
      omega
    · simp [h, byteLen]

/-- byteFloorTake takes the longest char prefix within the budget. -/
theorem byteFloorTake_max :
    ∀ (s : List Char) (n j : Nat), j ≤ s.length → byteLen (s.take j) ≤ n →
      j ≤ (byteFloorTake s n).length := by
  intro s
  induction s with
  | nil => intro n j hj _; simpa [byteFloorTake] using hj
  | cons c cs ih =>
    intro n j hj hb
    cases j with
    | zero => exact Nat.zero_le _
    | succ j =>
      simp only [List.take_succ_cons, byteLen, List.map_cons, List.sum_cons] at hb
      have hc : c.utf8Size ≤ n := by omega
      simp only [byteFloorTake, hc, if_true, List.length_cons]
      have hrec : byteLen (cs.take j) ≤ n - c.utf8Size := by
        simp only [byteLen]; omega
      have := ih (n - c.utf8Size) j (by simpa using hj) hrec
      omega

/-- C8, amended: the RX preview equals the content when the content is
at most 200 bytes long; otherwise it is the longest prefix of whole
chars occupying at most 200 bytes, followed by the ellipsis — so the
truncation is byte-based, and never splits a multi-byte char (the kept
part is a take of whole chars). -/
theorem c8_truncate_byte_semantics :
    ∀ s : String,
      (byteLen s.data ≤ 200 → truncate s 200 = s) ∧
      (200 < byteLen s.data →
        truncate s 200 = String.mk (byteFloorTake s.data 200) ++ "..." ∧
        byteFloorTake s.data 200 = s.data.take (byteFloorTake s.data 200).length ∧
        byteLen (byteFloorTake s.data 200) ≤ 200 ∧
        (∀ j : Nat, j ≤ s.data.length → byteLen (s.data.take j) ≤ 200 →
          j ≤ (byteFloorTake s.data 200).length)) := by
  intro s
  constructor
  · intro h
    simp [truncate, h]
  · intro h
    have hn : ¬ byteLen s.data ≤ 200 := by omega
    refine ⟨by simp [truncate, hn], byteFloorTake_eq_take s.data 200,
      byteLen_byteFloorTake_le s.data 200, fun j hj hb => byteFloorTake_max s.data 200 j hj hb⟩

/-- C8 witness: the amended theorem applied at the concrete content. -/
theorem c8_truncate_byte_semantics_witness :
    (200 < byteLen c8Content.data) ∧
    truncate c8Content 200 = String.mk (byteFloorTake c8Content.data 200) ++ "..." :=
  ⟨by decide, ((c8_truncate_byte_semantics c8Content).2 (by decide)).1⟩

/-! ## Claim C10 -/

/-- C10, counterexample: the stored gate text BEHAVIORAL is none of the
four gate names, yet it decodes as behavioral, not as the claimed
epistemic fallback, because Gate::from_str lowercases first. -/
theorem c10_uppercase_gate_counterexample :
    parseGate "BEHAVIORAL" = .behavioral ∧
    parseGate "BEHAVIORAL" ≠ .epistemic ∧
    "BEHAVIORAL" ∉ gateNames := by
  refine ⟨by decide, by decide, by decide⟩

/-- C10, amended: row decoding is total by construction and falls back
per field — a gate string decodes as the gate whose name matches its
lowercasing and as epistemic when none does, a decay_class string that
the JSON decoder rejects decodes as moderate, and a timestamp string
that the rfc3339 parser rejects decodes as the supplied current time —
for every behaviour of the external parsers. -/
theorem c10_row_decode_fallbacks :
    ∀ (P : ExternalParsers) (s : String) (now : ℤ),
      (strToLower s ∉ gateNames → parseGate s = .epistemic) ∧
      (strToLower s = "behavioral" → parseGate s = .behavioral) ∧
      (strToLower s = "relational" → parseGate s = .relational) ∧
      (strToLower s = "epistemic" → parseGate s = .epistemic) ∧
      (strToLower s = "promissory" → parseGate s = .promissory) ∧
      (P.parseRfc3339 s = none → parseDt P s now = now) ∧
      (P.parseDecayJson s = none → parseDecay P s = .moderate) := by
  intro P s now
  refine ⟨?_, ?_, ?_, ?_, ?_, ?_, ?_⟩
  · intro h
    simp only [gateNames, List.mem_cons, List.mem_singleton, not_or] at h
    obtain ⟨h1, h2, h3, h4, _⟩ := h
    simp [parseGate, Gate.fromStr, h1, h2, h3, h4]
  · intro h; simp [parseGate, Gate.fromStr, h]
  · intro h; simp [parseGate, Gate.fromStr, h]
  · intro h; simp [parseGate, Gate.fromStr, h]
  · intro h; simp [parseGate, Gate.fromStr, h]
  · intro h; simp [parseDt, h]
  · intro h; simp [parseDecay, h]

/-- C10 witness: the amended theorem applied with external parsers
that reject their input and a gate text outside the four names. -/
theorem c10_row_decode_fallbacks_witness :
    (strToLower "garbage" ∉ gateNames) ∧
    parseGate "garbage" = .epistemic ∧
    parseDt ⟨fun _ => none, fun _ => none⟩ "garbage" 0 = 0 ∧
    parseDecay ⟨fun _ => none, fun _ => none⟩ "garbage" = .moderate := by
  have h := c10_row_decode_fallbacks ⟨fun _ => none, fun _ => none⟩ "garbage" 0
  exact ⟨by decide, h.1 (by decide), h.2.2.2.2.2.1 rfl, h.2.2.2.2.2.2 rfl⟩

/-! ## Claim C3 -/

theorem exists_ok_of_ite {c : Prop} [Decidable c] (a b : String) :
    ∃ s, (if c then (Except.ok a : Except String String) else .ok b) = .ok s := by
  by_cases h : c <;> simp [h]

/-- C3: failures of the best-effort shadow steps never fail the
enclosing operation. A remember run with any VX/RX outcomes produces
the same Result and the same LX and CS state as the run in which every
shadow step succeeds (its result differs at most in the shadow stores);
the same holds for forget once the required archive write is past; and
recall always returns Ok, with a failed vector search or graph
traversal contributing exactly nothing (it equals the run in which that
backend succeeds with an empty answer). -/
theorem c3_shadow_failures_never_fail_operations :
    ∀ (yaml : Memory → String) (p : RememberParams) (eff : RememberEff) (st : Store)
      (nowRfc id reason : String) (feff : ForgetEff) (st2 : Store)
      (reff : RecallEff) (st3 : Store),
      (doRemember yaml p eff st).map (fun r => (r.1, r.2.db, r.2.fs)) =
        (doRemember yaml p { eff with vxOk := true, rxUpsertOk := true, rxLinkOk := true } st).map
          (fun r => (r.1, r.2.db, r.2.fs)) ∧
      (doForget nowRfc id reason feff st2).1 =
        (doForget nowRfc id reason { feff with vxDeleteOk := true, rxDeleteOk := true } st2).1 ∧
      (doForget nowRfc id reason feff st2).2.db =
        (doForget nowRfc id reason { feff with vxDeleteOk := true, rxDeleteOk := true } st2).2.db ∧
      (doForget nowRfc id reason feff st2).2.fs =
        (doForget nowRfc id reason { feff with vxDeleteOk := true, rxDeleteOk := true } st2).2.fs ∧
      (∃ s, doRecall reff st3 = .ok s) ∧
      doRecall { reff with vxSearch := .error () } st3 =
        doRecall { reff with vxSearch := .ok [] } st3 ∧
      doRecall { reff with related := fun _ => .error () } st3 =
        doRecall { reff with related := fun _ => .ok [] } st3 := by
  intro yaml p eff st nowRfc id reason feff st2 reff st3
  refine ⟨?_, ?_, ?_, ?_, ?_, ?_, ?_⟩
  · obtain ⟨j, lt, ix, vxb, rub, rlb⟩ := eff
    cases hg : Gate.fromStr p.gateStr with
    | none => simp [doRemember, hg]
    | some g =>
      cases j <;> cases lt <;> cases ix <;>
        (simp only [doRemember, hg, Bool.not_true, Bool.not_false, if_true, if_false,
          Bool.false_eq_true, Option.map_some, Option.map_none, Option.map_map]; try rfl)
  · obtain ⟨aw, vxd, rxd⟩ := feff
    cases hd : getMemory id st2.db with
    | none => simp [doForget, deleteMemory, hd]
    | some m => cases aw <;> simp [doForget, deleteMemory, hd]
  · obtain ⟨aw, vxd, rxd⟩ := feff
    cases hd : getMemory id st2.db with
    | none => simp [doForget, deleteMemory, hd]
    | some m => cases aw <;> simp [doForget, deleteMemory, hd]
  · obtain ⟨aw, vxd, rxd⟩ := feff
    cases hd : getMemory id st2.db with
    | none => simp [doForget, deleteMemory, hd]
    | some m => cases aw <;> simp [doForget, deleteMemory, hd]
  · simp only [doRecall]
    apply exists_ok_of_ite
  · rfl
  · rfl

/-! ## Claim C7: helper lemmas -/

theorem wsOnly_append (a b : String) : wsOnly (a ++ b) = (wsOnly a && wsOnly b) := by
  simp [wsOnly, String.data_append, List.all_append]

/-- When the concatenation built by the digest loop is whitespace-only,
so is every journal it read. -/
theorem wsOnly_foldl_journals (st : DigestStore) :
    ∀ (dates : List ℤ) (acc : String),
      wsOnly (dates.foldl (fun s d => s ++ readJournal st d ++ "\n") acc) = true →
      wsOnly acc = true ∧ ∀ d ∈ dates, wsOnly (readJournal st d) = true := by
  intro dates
  induction dates with
  | nil => intro acc h; exact ⟨h, by simp⟩
  | cons d ds ih =>
    intro acc h
    simp only [List.foldl_cons] at h
    obtain ⟨hacc, hrest⟩ := ih _ h
    rw [wsOnly_append, wsOnly_append] at hacc
    simp only [Bool.and_eq_true] at hacc
    refine ⟨hacc.1.1, ?_⟩
    intro x hx
    rcases List.mem_cons.mp hx with rfl | hx
    · exact hacc.1.2
    · exact hrest x hx

theorem archiveJournal_journals (st : DigestStore) (d : ℤ) :
    (archiveJournal st d).journals = st.journals.filter (fun q => !(q.1 == d)) := by
  unfold archiveJournal
  cases hf : st.journals.find? (fun p => p.1 == d) with
  | some p => rfl
  | none =>
    have h := List.find?_eq_none.mp hf
    have : st.journals.filter (fun q => !(q.1 == d)) = st.journals := by
      apply List.filter_eq_self.mpr
      intro a ha
      simpa using h a ha
    rw [this]

theorem foldl_archiveJournal_journals :
    ∀ (dates : List ℤ) (st : DigestStore),
      (dates.foldl archiveJournal st).journals =
        st.journals.filter (fun q => !(decide (q.1 ∈ dates))) := by
  intro dates
  induction dates with
  | nil =>
    intro st
    simp
  | cons d ds ih =>
    intro st
    simp only [List.foldl_cons]
    rw [ih, archiveJournal_journals, List.filter_filter]
    apply List.filter_congr
    intro x _
    by_cases h1 : x.1 = d
    · simp [h1]
    · by_cases h2 : x.1 ∈ ds <;> simp [h1, h2]

/-- The per-week loop of the digest pipeline, run over any suffix of
the week keys: provided every journal content is non-whitespace, every
stale date belongs to the journal directory, the remaining week keys
are distinct and each is the week of some stale date, and the current
journals are the original ones minus the stale dates of the already
processed weeks, the loop ends with exactly the non-stale journals. -/
theorem processWeek_fold_journals (isoWeek : ℤ → String) (digestFn : String → String)
    (stale : List ℤ) (st0 : DigestStore)
    (hnz : ∀ p ∈ st0.journals, wsOnly p.2 = false)
    (hsm : ∀ d ∈ stale, ∃ c, (d, c) ∈ st0.journals) :
    ∀ (ws : List String) (written : List String) (s : DigestStore),
      ws.Nodup →
      (∀ w ∈ ws, ∃ d ∈ stale, isoWeek d = w) →
      s.journals = st0.journals.filter
        (fun p => !(decide (p.1 ∈ stale) && !(decide (isoWeek p.1 ∈ ws)))) →
      (ws.foldl (processWeek isoWeek digestFn stale) (written, s)).2.journals =
        st0.journals.filter (fun p => !(decide (p.1 ∈ stale))) := by
  intro ws
  induction ws with
  | nil =>
    intro written s _ _ hs
    simp only [List.foldl_nil]
    rw [hs]
    apply List.filter_congr
    intro x _
    simp
  | cons w rest ih =>
    intro written s hnd hcov hs
    have hwnr : w ∉ rest := (List.nodup_cons.mp hnd).1
    have hndr : rest.Nodup := (List.nodup_cons.mp hnd).2
    simp only [List.foldl_cons]
    -- unfold one processWeek step
    obtain ⟨d0, hd0stale, hd0w⟩ := hcov w (List.mem_cons_self w rest)
    have hdates0 : d0 ∈ stale.filter (fun d => isoWeek d == w) := by
      simp [List.mem_filter, hd0stale, hd0w]
    -- the combined text of this week group cannot be whitespace-only
    have hcomb : wsOnly ((stale.filter (fun d => isoWeek d == w)).foldl
        (fun s2 d => s2 ++ readJournal s d ++ "\n") "") = false := by
      by_contra hw
      have hw' : wsOnly ((stale.filter (fun d => isoWeek d == w)).foldl
          (fun s2 d => s2 ++ readJournal s d ++ "\n") "") = true := by
        cases h : wsOnly ((stale.filter (fun d => isoWeek d == w)).foldl
            (fun s2 d => s2 ++ readJournal s d ++ "\n") "") with
        | false => exact absurd h hw
        | true => rfl
      obtain ⟨-, hall⟩ := wsOnly_foldl_journals s _ _ hw'
      have hread := hall d0 hdates0
      -- d0 is still present in s.journals, with non-whitespace content
      obtain ⟨c0, hc0⟩ := hsm d0 hd0stale
      have hmem : (d0, c0) ∈ s.journals := by
        rw [hs]
        apply List.mem_filter.mpr
        refine ⟨hc0, ?_⟩
        simp [hd0stale, hd0w]
      cases hf : s.journals.find? (fun p => p.1 == d0) with
      | none =>
        have := List.find?_eq_none.mp hf (d0, c0) hmem
        simp at this
      | some q =>
        have hq2 : wsOnly q.2 = false := by
          have hqmem : q ∈ s.journals := List.mem_of_find?_eq_some hf
          rw [hs] at hqmem
          exact hnz q (List.mem_filter.mp hqmem).1
        have : readJournal s d0 = q.2 := by
          simp [readJournal, hf]
        rw [this, hq2] at hread
        exact absurd hread (by simp)
    -- hence the non-whitespace branch runs and archives this group
    have hstep : (processWeek isoWeek digestFn stale (written, s) w).2.journals =
        st0.journals.filter
          (fun p => !(decide (p.1 ∈ stale) && !(decide (isoWeek p.1 ∈ rest)))) := by
      simp only [processWeek, hcomb, Bool.false_eq_true, if_false]
      rw [foldl_archiveJournal_journals]
      have hjm : ({ s with digests :=
          ("digests/" ++ w ++ ".md", "# Week " ++ w ++ "\n\n" ++
            digestFn ((stale.filter (fun d => isoWeek d == w)).foldl
              (fun s2 d => s2 ++ readJournal s d ++ "\n") "") ++ "\n") ::
            s.digests.filter (fun q => !(q.1 == "digests/" ++ w ++ ".md")) } :
          DigestStore).journals = s.journals := rfl
      rw [hjm, hs, List.filter_filter]
      apply List.filter_congr
      intro x _
      by_cases ha : x.1 ∈ stale
      · by_cases hb : isoWeek x.1 = w
        · have hr : isoWeek x.1 ∉ rest := by rw [hb]; exact hwnr
          simp [ha, hb, hr, hwnr, List.mem_filter]
        · by_cases hr : isoWeek x.1 ∈ rest <;>
            simp [ha, hb, hr, List.mem_filter]
      · simp [ha, List.mem_filter]
    rw [show (processWeek isoWeek digestFn stale (written, s) w) =
        ((processWeek isoWeek digestFn stale (written, s) w).1,
         (processWeek isoWeek digestFn stale (written, s) w).2) from rfl]
    exact ih _ _ hndr (fun x hx => hcov x (List.mem_cons_of_mem w hx)) hstep

/-- A digest store whose only journal is stale and whitespace-only. -/
def c7WsStore : DigestStore := { journals := [(0, " ")], digests := [], archivedJournals := [] }

/-- A digest store whose only journal is stale with real content. -/
def c7GoodStore : DigestStore := { journals := [(0, "x")], digests := [], archivedJournals := [] }

/-- C7, counterexample: with a whitespace-only stale journal, the first
digest run archives nothing and writes nothing, and the second run
still finds a journal date older than 14 days — the claim that the
second run finds none fails on this store. -/
theorem c7_whitespace_journal_counterexample :
    consolidateJournals (fun _ => "W1") (fun _ => "D") 20 c7WsStore = (none, c7WsStore) ∧
    staleJournals 20 14 (consolidateJournals (fun _ => "W1") (fun _ => "D") 20 c7WsStore).2 =
      [0] := by
  refine ⟨by decide, by decide⟩

/-- C7, amended: provided no journal file content is whitespace-only
(true of every journal the program itself writes) and both runs observe
the same current date, the first digest run archives every stale
journal, so the second run finds no stale journal dates, writes no
digest, archives nothing, and returns None with the store unchanged. -/
theorem c7_digest_second_run_noop :
    ∀ (isoWeek : ℤ → String) (digestFn : String → String) (today : ℤ) (st : DigestStore),
      (∀ p ∈ st.journals, wsOnly p.2 = false) →
      staleJournals today 14 (consolidateJournals isoWeek digestFn today st).2 = [] ∧
      consolidateJournals isoWeek digestFn today
          (consolidateJournals isoWeek digestFn today st).2 =
        (none, (consolidateJournals isoWeek digestFn today st).2) := by
  intro W F today st hnz
  by_cases hempty : (staleJournals today 14 st).isEmpty = true
  · have h1 : consolidateJournals W F today st = (none, st) := by
      simp [consolidateJournals, hempty]
    have h2 : staleJournals today 14 st = [] := by
      cases h : staleJournals today 14 st with
      | nil => rfl
      | cons a l => rw [h] at hempty; simp at hempty
    rw [h1]
    exact ⟨h2, by simp [consolidateJournals, hempty]⟩
  · have hne : (staleJournals today 14 st).isEmpty = false := by
      cases h : (staleJournals today 14 st).isEmpty with
      | false => rfl
      | true => exact absurd h hempty
    have hres2 : (consolidateJournals W F today st).2 =
        ((isort strLe (dedupKeepLast ((staleJournals today 14 st).map W))).foldl
          (processWeek W F (staleJournals today 14 st)) ([], st)).2 := by
      simp only [consolidateJournals, hne, Bool.false_eq_true, if_false]
      rw [apply_ite Prod.snd, ite_self]
    have hsm : ∀ d ∈ staleJournals today 14 st, ∃ c, (d, c) ∈ st.journals := by
      intro d hd
      have hd1 : d ∈ listJournalDates st := (List.mem_filter.mp hd).1
      rw [listJournalDates, mem_isort] at hd1
      obtain ⟨p, hp, hp1⟩ := List.mem_map.mp hd1
      refine ⟨p.2, ?_⟩
      have : (d, p.2) = p := by rw [← hp1]
      rw [this]
      exact hp
    have hcov : ∀ w ∈ isort strLe (dedupKeepLast ((staleJournals today 14 st).map W)),
        ∃ d ∈ staleJournals today 14 st, W d = w := by
      intro w hw
      rw [mem_isort, mem_dedupKeepLast] at hw
      exact List.mem_map.mp hw
    have hnd : (isort strLe (dedupKeepLast ((staleJournals today 14 st).map W))).Nodup :=
      nodup_isort _ _ (nodup_dedupKeepLast _)
    have hinit : st.journals = st.journals.filter
        (fun p => !(decide (p.1 ∈ staleJournals today 14 st) &&
          !(decide (W p.1 ∈ isort strLe (dedupKeepLast ((staleJournals today 14 st).map W)))))) := by
      symm
      apply List.filter_eq_self.mpr
      intro p hp
      by_cases ha : p.1 ∈ staleJournals today 14 st
      · have hb : W p.1 ∈ isort strLe (dedupKeepLast ((staleJournals today 14 st).map W)) := by
          rw [mem_isort, mem_dedupKeepLast]
          exact List.mem_map_of_mem W ha
        simp [ha, hb]
      · simp [ha]
    have hjour : ((isort strLe (dedupKeepLast ((staleJournals today 14 st).map W))).foldl
          (processWeek W F (staleJournals today 14 st)) ([], st)).2.journals =
        st.journals.filter (fun p => !(decide (p.1 ∈ staleJournals today 14 st))) :=
      processWeek_fold_journals W F (staleJournals today 14 st) st hnz hsm _ [] st hnd hcov hinit
    have hstale1 : staleJournals today 14 (consolidateJournals W F today st).2 = [] := by
      rw [hres2]
      apply List.filter_eq_nil_iff.mpr
      intro d hd
      rw [listJournalDates, mem_isort] at hd
      obtain ⟨p, hp, hp1⟩ := List.mem_map.mp hd
      rw [hjour] at hp
      have hp0 := List.mem_filter.mp hp
      intro hlt
      apply absurd hp0.2
      have hdlt : (d : ℤ) < today - 14 := by simpa using hlt
      have hdst : p.1 ∈ staleJournals today 14 st := by
        apply List.mem_filter.mpr
        refine ⟨?_, by simp [hp1, hdlt]⟩
        rw [listJournalDates, mem_isort]
        exact List.mem_map_of_mem Prod.fst hp0.1
      simp [hdst]
    refine ⟨hstale1, ?_⟩
    generalize hgen : (consolidateJournals W F today st).2 = st1 at hstale1 ⊢
    simp only [consolidateJournals, hstale1, List.isEmpty_nil, if_true]

/-- C7 witness: the amended theorem applied at a concrete store with a
single stale journal with real content. -/
theorem c7_digest_second_run_noop_witness :
    (∀ p ∈ c7GoodStore.journals, wsOnly p.2 = false) ∧
    staleJournals 20 14 (consolidateJournals (fun _ => "W1") (fun _ => "D") 20 c7GoodStore).2 =
      [] ∧
    consolidateJournals (fun _ => "W1") (fun _ => "D") 20
        (consolidateJournals (fun _ => "W1") (fun _ => "D") 20 c7GoodStore).2 =
      (none, (consolidateJournals (fun _ => "W1") (fun _ => "D") 20 c7GoodStore).2) :=
  ⟨by decide,
   (c7_digest_second_run_noop (fun _ => "W1") (fun _ => "D") 20 c7GoodStore (by decide)).1,
   (c7_digest_second_run_noop (fun _ => "W1") (fun _ => "D") 20 c7GoodStore (by decide)).2⟩

end MemoryKit
